import Mathlib

/-
Verification development for the MuseMind poem-generation backend
(a single Express server file, src/server/server.js).

The embedding models, over Lean strings and lists of characters:
  - the helper `cleanPoem` (trim, markdown-star removal, the two
    anchored regex replacements, line filtering and 5-line truncation);
  - the helper `buildPrompt` (theme template lookup with default);
  - the POST /api/generate-poem handler (validation, credential check,
    remote call outcome, error classification in the catch block);
  - the middleware stack and route dispatch order of the app.
-/

set_option maxRecDepth 8192

namespace MuseMind

/-- JavaScript whitespace as used by String.prototype.trim and by the
regex class backslash-s: ASCII whitespace plus the Unicode space
characters and line separators. -/
def isJsSpace (c : Char) : Bool :=
  c == ' ' || c == '\t' || c == '\n' || c == '\r' ||
  c == Char.ofNat 11 || c == Char.ofNat 12 || c.val == 160 || c.val == 0x1680 ||
  (0x2000 ≤ c.val && c.val ≤ 0x200a) || c.val == 0x2028 || c.val == 0x2029 ||
  c.val == 0x202f || c.val == 0x205f || c.val == 0x3000 || c.val == 0xfeff

/-- JavaScript regex line terminators: the characters that the regex
dot does not match. -/
def isLineTerm (c : Char) : Bool :=
  c == '\n' || c == '\r' || c.val == 0x2028 || c.val == 0x2029

/-- Leading-whitespace removal (the left half of JS trim). -/
def trimLeft (l : List Char) : List Char :=
  l.dropWhile isJsSpace

/-- Trailing-whitespace removal (the right half of JS trim). -/
def trimRight (l : List Char) : List Char :=
  (l.reverse.dropWhile isJsSpace).reverse

/-- JS String.prototype.trim on a list of characters. -/
def jsTrim (l : List Char) : List Char :=
  trimRight (trimLeft l)

/-- Models text.replace of two literal stars, global: scanning left to
right, each occurrence of two consecutive stars is deleted. -/
def removeStarStar : List Char → List Char
  | [] => []
  | [c] => [c]
  | c :: d :: rest =>
    if c = '*' ∧ d = '*' then removeStarStar rest
    else c :: removeStarStar (d :: rest)

/-- Models text.replace of a single literal star, global: every star
character is deleted. -/
def removeStar : List Char → List Char
  | [] => []
  | c :: rest => if c = '*' then removeStar rest else c :: removeStar rest

/-- Case-insensitive character comparison for the regex i flag
(ASCII folding, which agrees with ECMAScript canonicalization on the
ASCII patterns used here). -/
def ciEq (a b : Char) : Bool := a.toLower == b.toLower

/-- Case-insensitive: the first list is an initial segment of the second. -/
def ciStartsWith : List Char → List Char → Bool
  | [], _ => true
  | _ :: _, [] => false
  | p :: ps, c :: cs => ciEq p c && ciStartsWith ps cs

/-- The characters of the first regex alternative Here+apostrophe+s. -/
def heresApos : List Char := ['H', 'e', 'r', 'e', Char.ofNat 39, 's']

/-- The characters of the second regex alternative Here is. -/
def hereIsPat : List Char := ['H', 'e', 'r', 'e', ' ', 'i', 's']

/-- The characters of the alternative Title followed by a colon. -/
def titleColon : List Char := ['T', 'i', 't', 'l', 'e', ':']

/-- The characters of the alternative Poem followed by a colon. -/
def poemColon : List Char := ['P', 'o', 'e', 'm', ':']

/-- The lazy regex fragment dot-star-lazy followed by a colon: consume
the fewest characters (none of them line terminators) up to the first
colon; return the remainder after that colon, or none when a line
terminator or the end of input comes first. -/
def lazyToColon : List Char → Option (List Char)
  | [] => none
  | c :: rest =>
    if c = ':' then some rest
    else if isLineTerm c then none
    else lazyToColon rest

/-- The lazy regex fragment dot-star-lazy followed by a newline:
consume the fewest characters (none of them line terminators) up to the
first newline; return the remainder after it, or none when another line
terminator or the end of input comes first. -/
def lazyToNewline : List Char → Option (List Char)
  | [] => none
  | c :: rest =>
    if c = '\n' then some rest
    else if isLineTerm c then none
    else lazyToNewline rest

/-- One alternative of the Here-preamble regex: when the pattern
case-insensitively starts the string and a colon follows on the same
line, the match extends through that colon and any following whitespace
(the regex tail backslash-s-star); returns the remainder. -/
def tryHeres (pat : List Char) (l : List Char) : Option (List Char) :=
  if ciStartsWith pat l then
    match lazyToColon (l.drop pat.length) with
    | some r => some (r.dropWhile isJsSpace)
    | none => none
  else none

/-- Models text.replace of the case-insensitive start-anchored regex
with alternatives Here+apostrophe+s and Here is, then lazy dot-star, a
colon and trailing whitespace (non-global, so at most one removal, and
only at the very start of the string).  The two alternatives cannot
both start the same string (they differ at their fifth character), so
trying them in order matches the regex engine. -/
def heresStrip (l : List Char) : List Char :=
  match tryHeres heresApos l with
  | some r => r
  | none =>
    match tryHeres hereIsPat l with
    | some r => r
    | none => l

/-- One alternative of the leading Title/Poem line regex: when the
pattern case-insensitively starts the string, the match extends lazily
through the first newline; returns the remainder. -/
def tryLeadLine (pat : List Char) (l : List Char) : Option (List Char) :=
  if ciStartsWith pat l then lazyToNewline (l.drop pat.length) else none

/-- Models text.replace of the regex anchored with a caret, with
alternatives Title and Poem followed by a colon, lazy dot-star and a
newline, with the global and case-insensitive flags but WITHOUT the
multiline flag.  Without the multiline flag the caret only matches at
position zero of the whole string, and after one removal the global
scan resumes past position zero, so at most one leading line is
removed.  The two alternatives differ at their first character, so
trying them in order matches the regex engine. -/
def titlePoemStrip (l : List Char) : List Char :=
  match tryLeadLine titleColon l with
  | some r => r
  | none =>
    match tryLeadLine poemColon l with
    | some r => r
    | none => l

/-- JS String.prototype.split on a single newline character. -/
def jsSplitNl : List Char → List (List Char)
  | [] => [[]]
  | c :: rest =>
    if c = '\n' then [] :: jsSplitNl rest
    else
      match jsSplitNl rest with
      | [] => [[c]]
      | line :: more => (c :: line) :: more

/-- JS Array.prototype.join with a newline separator. -/
def jsJoinNl : List (List Char) → List Char
  | [] => []
  | [x] => x
  | x :: y :: rest => x ++ '\n' :: jsJoinNl (y :: rest)

/-- The filter step of cleanPoem: keep lines whose trim is non-empty. -/
def filterNonblank (ls : List (List Char)) : List (List Char) :=
  ls.filter (fun line => decide (0 < (jsTrim line).length))

/-- The truncation step of cleanPoem: when more than 5 lines remain,
keep only the first 5. -/
def truncate5 (ls : List (List Char)) : List (List Char) :=
  if 5 < ls.length then ls.take 5 else ls

/-- The tail of cleanPoem after the regex replacements: split on
newlines, drop blank lines, truncate to 5 lines, rejoin and trim. -/
def finishLines (m : List Char) : List Char :=
  jsTrim (jsJoinNl (truncate5 (filterNonblank (jsSplitNl m))))

/-- The helper cleanPoem from server.js, on lists of characters, in
source order: trim; delete double stars then single stars; strip a
leading Here-preamble clause; strip a leading Title/Poem line; split,
filter blanks, truncate to 5 lines, rejoin, trim. -/
def cleanPoemL (l : List Char) : List Char :=
  finishLines (titlePoemStrip (heresStrip (removeStar (removeStarStar (jsTrim l)))))

/-- The helper cleanPoem from server.js. -/
def cleanPoem (s : String) : String :=
  ⟨cleanPoemL s.data⟩

/-- The lovelines entry of the themeContexts table in buildPrompt. -/
def lovelinesTemplate (userInput : String) : String :=
  "You are a romantic poet. Write a beautiful, heartfelt love poem (exactly 5 lines) about: "
    ++ userInput ++ "\nWrite the poem now:"

/-- The moodverse entry of the themeContexts table in buildPrompt. -/
def moodverseTemplate (userInput : String) : String :=
  "You are an emotional poet. Write a deeply emotional poem (exactly 5 lines) that captures these feelings: "
    ++ userInput ++ "\nWrite the poem now:"

/-- The soulscript entry of the themeContexts table in buildPrompt. -/
def soulscriptTemplate (userInput : String) : String :=
  "You are an inspirational poet. Write an uplifting, reflective affirmation poem (exactly 5 lines) about: "
    ++ userInput ++ "\nWrite the poem now:"

/-- A value the JS bracket lookup themeContexts[theme] can produce:
one of the template strings, or a member inherited from
Object.prototype (a function, or for the proto accessor an object).
Every inherited member is truthy, so the or-else default does not fire
for it, and none of them is a string. -/
inductive JsLookup where
  | str (s : String)
  | inherited (name : String)
deriving DecidableEq

/-- Whether a lookup result is a JS string. -/
def JsLookup.isStr : JsLookup → Bool
  | .str _ => true
  | .inherited _ => false

/-- The property names an object literal inherits from Object.prototype
in Node: bracket lookup with one of these keys returns the inherited
member instead of undefined, so the or-else fallback in buildPrompt is
bypassed. -/
def objectProtoKeys : List String :=
  ["constructor", "hasOwnProperty", "isPrototypeOf", "propertyIsEnumerable",
   "toLocaleString", "toString", "valueOf", "__proto__",
   "__defineGetter__", "__defineSetter__", "__lookupGetter__", "__lookupSetter__"]

/-- The helper buildPrompt from server.js.  The theme argument is an
Option because the request body may omit it (JS undefined; the lookup
key then stringifies to a key that is neither own nor inherited, so
the default fires).  The JS bracket lookup first finds the three own
keys of the table; failing those it reaches the prototype chain, so a
theme naming an Object.prototype member returns that inherited truthy
non-string member and the or-else default is bypassed; only for the
remaining keys does the lookup yield undefined and the or-else return
the moodverse template.  All three templates are non-empty strings,
hence truthy. -/
def buildPrompt (userInput : String) (theme : Option String) : JsLookup :=
  match theme with
  | some t =>
    if t = "lovelines" then .str (lovelinesTemplate userInput)
    else if t = "moodverse" then .str (moodverseTemplate userInput)
    else if t = "soulscript" then .str (soulscriptTemplate userInput)
    else if t ∈ objectProtoKeys then .inherited t
    else .str (moodverseTemplate userInput)
  | none => .str (moodverseTemplate userInput)

/-- The JSON body of a POST /api/generate-poem request, after the JSON
body-parsing middleware.  Absent fields are modelled by none (JS
undefined). -/
structure GenBody where
  userInput : Option String
  theme : Option String
deriving DecidableEq

/-- The outcome of the single axios.post call to the remote service.
ok carries the extracted first-candidate text when the response has the
expected shape (candidates, first content, first part), and none when
that shape is absent.  httpError is a rejection carrying an HTTP status
(error.response present); timeout is the ECONNABORTED rejection;
networkError is a rejection with neither. -/
inductive RemoteOutcome where
  | ok (firstCandidateText : Option String)
  | httpError (status : Nat)
  | timeout
  | networkError
deriving DecidableEq

/-- The JS error value reaching the catch block of the handler. -/
inductive JsError where
  | axiosHttp (status : Nat)
  | axiosTimeout
  | axiosNetwork
  | thrown (msg : String)
deriving DecidableEq

/-- A JSON payload sent by the generate-poem handler: either the
success object (success true, poem, theme echoed from the request,
timestamp) or an error object with an optional retryAfter field. -/
inductive Payload where
  | poemOk (poem : String) (theme : Option String)
  | errMsg (error : String) (retryAfter : Option Nat)
deriving DecidableEq

/-- One HTTP response: status code plus JSON payload.  res.json without
res.status uses status 200. -/
structure Response where
  status : Nat
  payload : Payload
deriving DecidableEq

/-- What one run of the generate-poem handler did: the responses it
sent, the prompt lookup it built (none when it returned before
buildPrompt), and whether the remote axios.post call was issued. -/
structure HandlerTrace where
  responses : List Response
  prompt : Option JsLookup
  remoteCalled : Bool
deriving DecidableEq

/-- The validation guard of the handler: bang-userInput (undefined or
the empty string) or a whitespace-only string after trim. -/
def invalidInput : Option String → Bool
  | none => true
  | some s => s == "" || (jsTrim s.data).isEmpty

/-- The await axios.post expression: either the extracted text of a
well-shaped response, or the JS error that reaches the catch block
(a missing shape raises the thrown Unexpected-format Error). -/
def runRemote : RemoteOutcome → Except JsError String
  | .ok (some text) => .ok text
  | .ok none => .error (.thrown "Unexpected response format from Gemini API")
  | .httpError s => .error (.axiosHttp s)
  | .timeout => .error .axiosTimeout
  | .networkError => .error .axiosNetwork

/-- The catch block of the handler: classify the error exactly as the
source if chain does. -/
def catchBlock : JsError → Response
  | .axiosHttp status =>
    if status = 400 then ⟨400, .errMsg "Invalid request to AI service." none⟩
    else if status = 401 ∨ status = 403 then ⟨500, .errMsg "Authentication failed." none⟩
    else if status = 429 then ⟨429, .errMsg "Too many requests." (some 10)⟩
    else if status = 503 then ⟨503, .errMsg "Service unavailable." (some 20)⟩
    else ⟨500, .errMsg "Failed to generate poem." none⟩
  | .axiosTimeout => ⟨504, .errMsg "Request timed out." none⟩
  | .axiosNetwork => ⟨500, .errMsg "An unexpected error occurred." none⟩
  | .thrown _ => ⟨500, .errMsg "An unexpected error occurred." none⟩

/-- The POST /api/generate-poem handler from server.js, step by step:
validate userInput (400), check the configured credential (500), build
the prompt, issue the remote call, and either clean and return the poem
(200, theme echoed from the request) or classify the error in the catch
block.  The remote outcome is a parameter since the network is outside
the program.  Credential encoding: the JS guard bang-GEMINI_API_KEY is
true for an unset and for an empty environment variable alike, so the
apiKey argument here is none exactly when the variable is unset or
empty (the JS-falsy cases collapsed at the model boundary), and some k
carries a configured non-empty key. -/
def generatePoem (body : GenBody) (apiKey : Option String) (remote : RemoteOutcome) :
    HandlerTrace :=
  if invalidInput body.userInput then
    ⟨[⟨400, .errMsg "Please provide your feelings or thoughts to generate a poem." none⟩],
      none, false⟩
  else if apiKey.isNone then
    ⟨[⟨500, .errMsg "Server configuration error. Please contact support." none⟩],
      none, false⟩
  else
    let prompt := buildPrompt (body.userInput.getD "") body.theme
    match runRemote remote with
    | .ok text =>
      ⟨[⟨200, .poemOk (cleanPoem text) body.theme⟩], some prompt, true⟩
    | .error e =>
      ⟨[catchBlock e], some prompt, true⟩

/-- An incoming HTTP request as the routing layer sees it: method,
path, and whether the static middleware has a file for the path under
the public directory. -/
structure HttpRequest where
  method : String
  path : String
  hasStaticAsset : Bool
deriving DecidableEq

/-- The layers of the Express app that can end a request, in the order
they are registered in server.js.  The cors and json middlewares only
pass through for the requests modelled here and are omitted. -/
inductive Layer where
  | staticFiles
  | health
  | generatePoemRoute
  | notFoundAll
  | spaFallback
deriving DecidableEq

/-- Whether a layer matches (and therefore ends) a request:
express.static answers GET and HEAD requests for existing files;
app.get and app.post match method and exact path; the 404 handler is
app.use with no path, which matches every request; the final
app.get with a star pattern matches every GET or HEAD request. -/
def layerAccepts (h : Layer) (r : HttpRequest) : Bool :=
  match h with
  | .staticFiles => (r.method == "GET" || r.method == "HEAD") && r.hasStaticAsset
  | .health => r.method == "GET" && r.path == "/api/health"
  | .generatePoemRoute => r.method == "POST" && r.path == "/api/generate-poem"
  | .notFoundAll => true
  | .spaFallback => r.method == "GET" || r.method == "HEAD"

/-- The registration order in server.js: static middleware, the health
route, the generate-poem route, then the 404 handler, and only after it
the star route that sends index.html. -/
def middlewareStack : List Layer :=
  [.staticFiles, .health, .generatePoemRoute, .notFoundAll, .spaFallback]

/-- Express dispatch: the first registered layer that matches handles
the request. -/
def dispatch (r : HttpRequest) : Option Layer :=
  middlewareStack.find? (fun h => layerAccepts h r)

/-- What the routing layer sends for a request, with the generate-poem
route left symbolic (its response depends on the handler inputs). -/
inductive RouteReply where
  | staticAsset
  | healthOk
  | generateHandler
  | notFoundJson (status : Nat) (msg : String)
  | indexHtml (status : Nat)
  | hangNoResponse
deriving DecidableEq

/-- The response each layer produces: the 404 handler sends status 404
with the fixed JSON error message; the star route would send
public/index.html with status 200. -/
def route (r : HttpRequest) : RouteReply :=
  match dispatch r with
  | some .staticFiles => .staticAsset
  | some .health => .healthOk
  | some .generatePoemRoute => .generateHandler
  | some .notFoundAll => .notFoundJson 404 "Endpoint not found. Use POST /api/generate-poem."
  | some .spaFallback => .indexHtml 200
  | none => .hangNoResponse

/-- A list with at least one character that is not JS whitespace. -/
def hasNonWs (l : List Char) : Prop :=
  ∃ c ∈ l, isJsSpace c = false

theorem dw_shape (p : Char → Bool) (l : List Char) :
    List.dropWhile p l = [] ∨
      ∃ c t, List.dropWhile p l = c :: t ∧ p c = false := by
  induction l with
  | nil => exact Or.inl rfl
  | cons c t ih =>
    by_cases h : p c
    · rw [List.dropWhile_cons_of_pos h]
      exact ih
    · rw [List.dropWhile_cons_of_neg h]
      exact Or.inr ⟨c, t, rfl, by simpa using h⟩

theorem dropWhile_append_nonfix (p : Char → Bool) (a b : List Char)
    (h : ∃ c ∈ a, p c = false) :
    List.dropWhile p (a ++ b) = List.dropWhile p a ++ b := by
  induction a with
  | nil =>
    obtain ⟨c, hc, _⟩ := h
    exact absurd hc (List.not_mem_nil c)
  | cons c t ih =>
    by_cases hp : p c
    · rw [List.cons_append, List.dropWhile_cons_of_pos hp, List.dropWhile_cons_of_pos hp]
      apply ih
      obtain ⟨d, hd, hdp⟩ := h
      rcases List.mem_cons.mp hd with rfl | hdt
      · exact absurd hp (by simp [hdp])
      · exact ⟨d, hdt, hdp⟩
    · rw [List.cons_append, List.dropWhile_cons_of_neg hp, List.dropWhile_cons_of_neg hp,
        List.cons_append]

theorem trimLeft_idem (l : List Char) : trimLeft (trimLeft l) = trimLeft l := by
  unfold trimLeft
  rcases dw_shape isJsSpace l with h | ⟨c, t, h, hc⟩
  · rw [h]; rfl
  · rw [h, List.dropWhile_cons_of_neg (by simp [hc])]

theorem trimRight_idem (l : List Char) : trimRight (trimRight l) = trimRight l := by
  unfold trimRight
  rw [List.reverse_reverse]
  rcases dw_shape isJsSpace l.reverse with h | ⟨c, t, h, hc⟩
  · rw [h]; rfl
  · rw [h, List.dropWhile_cons_of_neg (by simp [hc])]

theorem trimRight_ex_append (l : List Char) : ∃ s, trimRight l ++ s = l := by
  refine ⟨(l.reverse.takeWhile isJsSpace).reverse, ?_⟩
  unfold trimRight
  rw [← List.reverse_append, List.takeWhile_append_dropWhile, List.reverse_reverse]

theorem trimLeft_trimRight_trimLeft (l : List Char) :
    trimLeft (trimRight (trimLeft l)) = trimRight (trimLeft l) := by
  rcases dw_shape isJsSpace l with h | ⟨c, t, h, hc⟩
  · show trimLeft (trimRight (List.dropWhile isJsSpace l)) = trimRight (List.dropWhile isJsSpace l)
    rw [h]; rfl
  · have hv : trimLeft l = c :: t := h
    rw [hv]
    obtain ⟨s, hs⟩ := trimRight_ex_append (c :: t)
    rcases he : trimRight (c :: t) with _ | ⟨d, t'⟩
    · rfl
    · have : d = c := by
        rw [he] at hs
        exact (List.cons.injEq d (t' ++ s) c t).mp (by simpa using hs) |>.1
      subst this
      show trimLeft (d :: t') = d :: t'
      unfold trimLeft
      rw [List.dropWhile_cons_of_neg (by simp [hc])]

theorem jsTrim_idem (l : List Char) : jsTrim (jsTrim l) = jsTrim l := by
  unfold jsTrim
  rw [trimLeft_trimRight_trimLeft, trimRight_idem]

theorem mem_trimLeft {c : Char} {l : List Char} (h : c ∈ trimLeft l) : c ∈ l :=
  (List.dropWhile_sublist _).mem h

theorem mem_trimRight {c : Char} {l : List Char} (h : c ∈ trimRight l) : c ∈ l := by
  unfold trimRight at h
  rw [List.mem_reverse] at h
  exact List.mem_reverse.mp ((List.dropWhile_sublist _).mem h)

theorem mem_jsTrim {c : Char} {l : List Char} (h : c ∈ jsTrim l) : c ∈ l :=
  mem_trimLeft (mem_trimRight h)

theorem hasNonWs_trimLeft {l : List Char} (h : hasNonWs l) : hasNonWs (trimLeft l) := by
  obtain ⟨c, hc, hcp⟩ := h
  induction l with
  | nil => exact absurd hc (List.not_mem_nil c)
  | cons d t ih =>
    by_cases hd : isJsSpace d
    · show hasNonWs (List.dropWhile isJsSpace (d :: t))
      rw [List.dropWhile_cons_of_pos hd]
      rcases List.mem_cons.mp hc with rfl | hct
      · exact absurd hd (by simp [hcp])
      · exact ih hct
    · show hasNonWs (List.dropWhile isJsSpace (d :: t))
      rw [List.dropWhile_cons_of_neg hd]
      exact ⟨c, hc, hcp⟩

theorem hasNonWs_trimRight {l : List Char} (h : hasNonWs l) : hasNonWs (trimRight l) := by
  obtain ⟨c, hc, hcp⟩ := h
  have : hasNonWs l.reverse := ⟨c, List.mem_reverse.mpr hc, hcp⟩
  obtain ⟨d, hd, hdp⟩ := hasNonWs_trimLeft this
  exact ⟨d, by simpa [trimRight] using hd, hdp⟩

theorem hasNonWs_jsTrim {l : List Char} (h : hasNonWs l) : hasNonWs (jsTrim l) :=
  hasNonWs_trimRight (hasNonWs_trimLeft h)

theorem hasNonWs_iff_jsTrim_pos (l : List Char) :
    0 < (jsTrim l).length ↔ hasNonWs l := by
  constructor
  · intro h
    by_contra hn
    have hall : ∀ c ∈ l, isJsSpace c = true := by
      intro c hc
      by_contra hcp
      exact hn ⟨c, hc, by simpa using hcp⟩
    have h1 : trimLeft l = [] := List.dropWhile_eq_nil_iff.mpr hall
    have : jsTrim l = [] := by
      unfold jsTrim
      rw [h1]
      rfl
    rw [this] at h
    exact absurd h (by simp)
  · intro h
    obtain ⟨c, hc, hcp⟩ := hasNonWs_jsTrim h
    rcases he : jsTrim l with _ | ⟨d, t⟩
    · rw [he] at hc; exact absurd hc (List.not_mem_nil c)
    · simp [he]

theorem trimRight_append_nonfix (a b : List Char) (h : hasNonWs b) :
    trimRight (a ++ b) = a ++ trimRight b := by
  unfold trimRight
  rw [List.reverse_append]
  obtain ⟨c, hc, hcp⟩ := h
  rw [dropWhile_append_nonfix isJsSpace b.reverse a.reverse
      ⟨c, List.mem_reverse.mpr hc, hcp⟩]
  rw [List.reverse_append, List.reverse_reverse]

theorem star_not_mem_removeStar (l : List Char) : '*' ∉ removeStar l := by
  induction l with
  | nil => simp [removeStar]
  | cons c t ih =>
    by_cases h : c = '*'
    · subst h
      simpa [removeStar] using ih
    · simp only [removeStar, if_neg h, List.mem_cons]
      rintro (rfl | hm)
      · exact h rfl
      · exact ih hm

theorem removeStarStar_eq_self {l : List Char} (h : '*' ∉ l) : removeStarStar l = l := by
  induction l with
  | nil => rfl
  | cons c t ih =>
    have hc : c ≠ '*' := fun hc => h (hc ▸ List.mem_cons_self c t)
    have ht : '*' ∉ t := fun hm => h (List.mem_cons_of_mem c hm)
    cases t with
    | nil => rfl
    | cons d t' =>
      show (if c = '*' ∧ d = '*' then removeStarStar t'
            else c :: removeStarStar (d :: t')) = c :: d :: t'
      rw [if_neg (fun hcd => hc hcd.1), ih ht]

theorem removeStar_eq_self {l : List Char} (h : '*' ∉ l) : removeStar l = l := by
  induction l with
  | nil => rfl
  | cons c t ih =>
    have hc : c ≠ '*' := fun hc => h (hc ▸ List.mem_cons_self c t)
    have ht : '*' ∉ t := fun hm => h (List.mem_cons_of_mem c hm)
    show (if c = '*' then removeStar t else c :: removeStar t) = c :: t
    rw [if_neg hc, ih ht]

theorem lazyToColon_suffix {l r : List Char} (h : lazyToColon l = some r) :
    ∃ s, s ++ r = l := by
  induction l with
  | nil => exact absurd h (by simp [lazyToColon])
  | cons c t ih =>
    by_cases hc : c = ':'
    · subst hc
      have h2 : t = r := by simpa [lazyToColon] using h
      exact ⟨[':'], by rw [h2]; rfl⟩
    · by_cases hl : isLineTerm c
      · simp [lazyToColon, if_neg hc, hl] at h
      · simp only [lazyToColon, if_neg hc, hl, Bool.false_eq_true, if_false] at h
        obtain ⟨s, hs⟩ := ih h
        exact ⟨c :: s, by rw [List.cons_append, hs]⟩

theorem lazyToNewline_suffix {l r : List Char} (h : lazyToNewline l = some r) :
    ∃ s, s ++ r = l := by
  induction l with
  | nil => exact absurd h (by simp [lazyToNewline])
  | cons c t ih =>
    by_cases hc : c = '\n'
    · subst hc
      have h2 : t = r := by simpa [lazyToNewline] using h
      exact ⟨['\n'], by rw [h2]; rfl⟩
    · by_cases hl : isLineTerm c
      · simp [lazyToNewline, if_neg hc, hl] at h
      · simp only [lazyToNewline, if_neg hc, hl, Bool.false_eq_true, if_false] at h
        obtain ⟨s, hs⟩ := ih h
        exact ⟨c :: s, by rw [List.cons_append, hs]⟩

theorem mem_heresStrip {c : Char} {l : List Char} (h : c ∈ heresStrip l) : c ∈ l := by
  unfold heresStrip at h
  have key : ∀ pat r, tryHeres pat l = some r → c ∈ r → c ∈ l := by
    intro pat r htry hcr
    unfold tryHeres at htry
    by_cases hp : ciStartsWith pat l
    · rw [if_pos hp] at htry
      rcases hlz : lazyToColon (l.drop pat.length) with _ | v
      · rw [hlz] at htry; exact absurd htry (by simp)
      · rw [hlz] at htry
        have hr : r = v.dropWhile isJsSpace := by
          simpa using htry.symm
        have hcv : c ∈ v := (List.dropWhile_sublist _).mem (hr ▸ hcr)
        obtain ⟨s, hs⟩ := lazyToColon_suffix hlz
        have : c ∈ l.drop pat.length := by
          rw [← hs]
          exact List.mem_append_right s hcv
        exact (List.drop_sublist _ _).mem this
    · rw [if_neg hp] at htry
      exact absurd htry (by simp)
  rcases h1 : tryHeres heresApos l with _ | r1
  · rw [h1] at h
    rcases h2 : tryHeres hereIsPat l with _ | r2
    · rw [h2] at h
      exact h
    · rw [h2] at h
      exact key hereIsPat r2 h2 h
  · rw [h1] at h
    exact key heresApos r1 h1 h

theorem mem_titlePoemStrip {c : Char} {l : List Char} (h : c ∈ titlePoemStrip l) : c ∈ l := by
  unfold titlePoemStrip at h
  have key : ∀ pat r, tryLeadLine pat l = some r → c ∈ r → c ∈ l := by
    intro pat r htry hcr
    unfold tryLeadLine at htry
    by_cases hp : ciStartsWith pat l
    · rw [if_pos hp] at htry
      obtain ⟨s, hs⟩ := lazyToNewline_suffix htry
      have : c ∈ l.drop pat.length := by
        rw [← hs]
        exact List.mem_append_right s hcr
      exact (List.drop_sublist _ _).mem this
    · rw [if_neg hp] at htry
      exact absurd htry (by simp)
  rcases h1 : tryLeadLine titleColon l with _ | r1
  · rw [h1] at h
    rcases h2 : tryLeadLine poemColon l with _ | r2
    · rw [h2] at h
      exact h
    · rw [h2] at h
      exact key poemColon r2 h2 h
  · rw [h1] at h
    exact key titleColon r1 h1 h

theorem splitNl_ne_nil (m : List Char) : jsSplitNl m ≠ [] := by
  cases m with
  | nil => simp [jsSplitNl]
  | cons c rest =>
    unfold jsSplitNl
    by_cases h : c = '\n'
    · rw [if_pos h]; simp
    · rw [if_neg h]
      rcases jsSplitNl rest with _ | ⟨line, more⟩ <;> simp

theorem splitNl_no_nl (m : List Char) : ∀ line ∈ jsSplitNl m, '\n' ∉ line := by
  induction m with
  | nil =>
    intro line hl
    simp [jsSplitNl] at hl
    simp [hl]
  | cons c rest ih =>
    intro line hl
    unfold jsSplitNl at hl
    by_cases h : c = '\n'
    · rw [if_pos h] at hl
      rcases List.mem_cons.mp hl with rfl | hm
      · simp
      · exact ih line hm
    · rw [if_neg h] at hl
      rcases he : jsSplitNl rest with _ | ⟨l0, more⟩
      · exact absurd he (splitNl_ne_nil rest)
      · rw [he] at hl
        rcases List.mem_cons.mp hl with rfl | hm
        · intro hmem
          rcases List.mem_cons.mp hmem with rfl | hm0
          · exact h rfl
          · exact ih l0 (he ▸ List.mem_cons_self l0 more) hm0
        · exact ih line (he ▸ List.mem_cons_of_mem l0 hm)

theorem splitNl_sublist (m : List Char) : ∀ line ∈ jsSplitNl m, List.Sublist line m := by
  induction m with
  | nil =>
    intro line hl
    simp [jsSplitNl] at hl
    simp [hl]
  | cons c rest ih =>
    intro line hl
    unfold jsSplitNl at hl
    by_cases h : c = '\n'
    · rw [if_pos h] at hl
      rcases List.mem_cons.mp hl with rfl | hm
      · exact List.nil_sublist _
      · exact (ih line hm).cons c
    · rw [if_neg h] at hl
      rcases he : jsSplitNl rest with _ | ⟨l0, more⟩
      · exact absurd he (splitNl_ne_nil rest)
      · rw [he] at hl
        rcases List.mem_cons.mp hl with rfl | hm
        · exact (ih l0 (he ▸ List.mem_cons_self l0 more)).cons₂ c
        · exact (ih line (he ▸ List.mem_cons_of_mem l0 hm)).cons c

theorem joinNl_cons_ne (a : List Char) (M : List (List Char)) (h : M ≠ []) :
    jsJoinNl (a :: M) = a ++ '\n' :: jsJoinNl M := by
  cases M with
  | nil => exact absurd rfl h
  | cons b t => rfl

theorem join_split_id (u : List Char) : jsJoinNl (jsSplitNl u) = u := by
  induction u with
  | nil => rfl
  | cons c rest ih =>
    unfold jsSplitNl
    by_cases h : c = '\n'
    · rw [if_pos h, joinNl_cons_ne _ _ (splitNl_ne_nil rest), ih, h]
      rfl
    · rw [if_neg h]
      rcases he : jsSplitNl rest with _ | ⟨l0, more⟩
      · exact absurd he (splitNl_ne_nil rest)
      · have hid : jsJoinNl (l0 :: more) = rest := by rw [← he]; exact ih
        cases more with
        | nil =>
          show c :: l0 = c :: rest
          rw [← hid]
          rfl
        | cons z w =>
          show (c :: l0) ++ '\n' :: jsJoinNl (z :: w) = c :: rest
          rw [← hid]
          rfl

theorem split_of_no_nl {x : List Char} (h : '\n' ∉ x) : jsSplitNl x = [x] := by
  induction x with
  | nil => rfl
  | cons c t ih =>
    have hc : c ≠ '\n' := fun hc => h (hc ▸ List.mem_cons_self c t)
    have ht : '\n' ∉ t := fun hm => h (List.mem_cons_of_mem c hm)
    unfold jsSplitNl
    rw [if_neg hc, ih ht]

theorem split_append_nl {x : List Char} (m : List Char) (h : '\n' ∉ x) :
    jsSplitNl (x ++ '\n' :: m) = x :: jsSplitNl m := by
  induction x with
  | nil =>
    show jsSplitNl ('\n' :: m) = [] :: jsSplitNl m
    conv_lhs => rw [jsSplitNl]
    rw [if_pos rfl]
  | cons c t ih =>
    have hc : c ≠ '\n' := fun hc => h (hc ▸ List.mem_cons_self c t)
    have ht : '\n' ∉ t := fun hm => h (List.mem_cons_of_mem c hm)
    show jsSplitNl (c :: (t ++ '\n' :: m)) = (c :: t) :: jsSplitNl m
    conv_lhs => rw [jsSplitNl]
    rw [if_neg hc, ih ht]

theorem split_join {M : List (List Char)} (hnl : ∀ a ∈ M, '\n' ∉ a) (hne : M ≠ []) :
    jsSplitNl (jsJoinNl M) = M := by
  induction M with
  | nil => exact absurd rfl hne
  | cons a M ih =>
    cases M with
    | nil =>
      show jsSplitNl (jsJoinNl [a]) = [a]
      exact split_of_no_nl (hnl a (List.mem_cons_self a []))
    | cons b t =>
      rw [joinNl_cons_ne a (b :: t) (by simp)]
      rw [split_append_nl _ (hnl a (List.mem_cons_self a _))]
      rw [ih (fun x hx => hnl x (List.mem_cons_of_mem a hx)) (by simp)]

theorem mem_joinNl {c : Char} {a : List Char} {M : List (List Char)}
    (ha : a ∈ M) (hc : c ∈ a) : c ∈ jsJoinNl M := by
  induction M with
  | nil => exact absurd ha (List.not_mem_nil a)
  | cons b t ih =>
    cases t with
    | nil =>
      rcases List.mem_cons.mp ha with rfl | hm
      · exact hc
      · exact absurd hm (List.not_mem_nil a)
    | cons z w =>
      rw [joinNl_cons_ne b (z :: w) (by simp)]
      rcases List.mem_cons.mp ha with rfl | hm
      · exact List.mem_append_left _ hc
      · exact List.mem_append_right _ (List.mem_cons_of_mem '\n' (ih hm))

theorem mem_joinNl_cases {c : Char} {M : List (List Char)} (h : c ∈ jsJoinNl M) :
    c = '\n' ∨ ∃ a ∈ M, c ∈ a := by
  induction M with
  | nil => exact absurd h (by simp [jsJoinNl])
  | cons b t ih =>
    cases t with
    | nil =>
      exact Or.inr ⟨b, List.mem_cons_self b [], h⟩
    | cons z w =>
      rw [joinNl_cons_ne b (z :: w) (by simp)] at h
      rcases List.mem_append.mp h with hb | hm
      · exact Or.inr ⟨b, List.mem_cons_self b _, hb⟩
      · rcases List.mem_cons.mp hm with rfl | hj
        · exact Or.inl rfl
        · rcases ih hj with hnl | ⟨a, ha, hc⟩
          · exact Or.inl hnl
          · exact Or.inr ⟨a, List.mem_cons_of_mem b ha, hc⟩

/-- Proof helper: apply a function to the last element of a list of
lines. -/
def mapLastF (f : List Char → List Char) : List (List Char) → List (List Char)
  | [] => []
  | [x] => [f x]
  | x :: y :: rest => x :: mapLastF f (y :: rest)

theorem mapLastF_length (f : List Char → List Char) (M : List (List Char)) :
    (mapLastF f M).length = M.length := by
  induction M with
  | nil => rfl
  | cons a M ih =>
    cases M with
    | nil => rfl
    | cons b t =>
      show (a :: mapLastF f (b :: t)).length = (a :: b :: t).length
      simp only [List.length_cons]
      rw [ih]
      rfl

theorem mapLastF_mem {f : List Char → List Char} {a : List Char} {M : List (List Char)}
    (h : a ∈ mapLastF f M) : a ∈ M ∨ ∃ b ∈ M, a = f b := by
  induction M with
  | nil => exact absurd h (by simp [mapLastF])
  | cons b t ih =>
    cases t with
    | nil =>
      rcases List.mem_cons.mp h with rfl | hm
      · exact Or.inr ⟨b, List.mem_cons_self b [], rfl⟩
      · exact absurd hm (List.not_mem_nil a)
    | cons z w =>
      rcases List.mem_cons.mp h with rfl | hm
      · exact Or.inl (List.mem_cons_self a _)
      · rcases ih hm with hl | ⟨d, hd, he⟩
        · exact Or.inl (List.mem_cons_of_mem b hl)
        · exact Or.inr ⟨d, List.mem_cons_of_mem b hd, he⟩

theorem mapLastF_ne_nil (f : List Char → List Char) {M : List (List Char)} (h : M ≠ []) :
    mapLastF f M ≠ [] := by
  cases M with
  | nil => exact absurd rfl h
  | cons b t => cases t <;> simp [mapLastF]

theorem trimLeft_joinNl (x : List Char) (rest : List (List Char)) (hx : hasNonWs x) :
    trimLeft (jsJoinNl (x :: rest)) = jsJoinNl (trimLeft x :: rest) := by
  cases rest with
  | nil => rfl
  | cons b t =>
    rw [joinNl_cons_ne x (b :: t) (by simp), joinNl_cons_ne (trimLeft x) (b :: t) (by simp)]
    exact dropWhile_append_nonfix isJsSpace x _ (by obtain ⟨c, hc, hcp⟩ := hx; exact ⟨c, hc, hcp⟩)

theorem trimRight_joinNl (M : List (List Char)) (hne : M ≠ [])
    (hnw : ∀ a ∈ M, hasNonWs a) :
    trimRight (jsJoinNl M) = jsJoinNl (mapLastF trimRight M) := by
  induction M with
  | nil => exact absurd rfl hne
  | cons a M ih =>
    cases M with
    | nil => rfl
    | cons b t =>
      have hJ : hasNonWs (jsJoinNl (b :: t)) := by
        obtain ⟨c, hc, hcp⟩ := hnw b (List.mem_cons_of_mem a (List.mem_cons_self b t))
        exact ⟨c, mem_joinNl (List.mem_cons_self b t) hc, hcp⟩
      rw [joinNl_cons_ne a (b :: t) (by simp)]
      have h1 : trimRight (a ++ '\n' :: jsJoinNl (b :: t))
          = a ++ trimRight ('\n' :: jsJoinNl (b :: t)) := by
        apply trimRight_append_nonfix
        obtain ⟨c, hc, hcp⟩ := hJ
        exact ⟨c, List.mem_cons_of_mem '\n' hc, hcp⟩
      have h2 : trimRight ('\n' :: jsJoinNl (b :: t))
          = '\n' :: trimRight (jsJoinNl (b :: t)) := by
        have := trimRight_append_nonfix ['\n'] (jsJoinNl (b :: t)) hJ
        simpa using this
      rw [h1, h2, ih (by simp) (fun z hz => hnw z (List.mem_cons_of_mem a hz))]
      show a ++ '\n' :: jsJoinNl (mapLastF trimRight (b :: t))
          = jsJoinNl (mapLastF trimRight (a :: b :: t))
      have hshape : mapLastF trimRight (a :: b :: t) = a :: mapLastF trimRight (b :: t) := rfl
      rw [hshape, joinNl_cons_ne a _ (mapLastF_ne_nil trimRight (by simp))]

theorem truncate5_length (M : List (List Char)) : (truncate5 M).length ≤ 5 := by
  unfold truncate5
  by_cases h : 5 < M.length
  · rw [if_pos h]
    exact M.length_take_le 5
  · rw [if_neg h]
    omega

theorem mem_truncate5 {a : List Char} {M : List (List Char)} (h : a ∈ truncate5 M) :
    a ∈ M := by
  unfold truncate5 at h
  by_cases h5 : 5 < M.length
  · rw [if_pos h5] at h
    exact (List.take_sublist 5 M).mem h
  · rw [if_neg h5] at h
    exact h

theorem mem_filterNonblank {a : List Char} {M : List (List Char)}
    (h : a ∈ filterNonblank M) : a ∈ M ∧ 0 < (jsTrim a).length := by
  have := List.mem_filter.mp h
  exact ⟨this.1, of_decide_eq_true this.2⟩

theorem mem_finishLines_cases {c : Char} {m : List Char} (h : c ∈ finishLines m) :
    c = '\n' ∨ c ∈ m := by
  unfold finishLines at h
  have h2 := mem_jsTrim h
  rcases mem_joinNl_cases h2 with hnl | ⟨a, ha, hc⟩
  · exact Or.inl hnl
  · have ham : a ∈ jsSplitNl m := (mem_filterNonblank (mem_truncate5 ha)).1
    exact Or.inr ((splitNl_sublist m a ham).mem hc)

theorem jsTrim_finishLines (m : List Char) : jsTrim (finishLines m) = finishLines m := by
  unfold finishLines
  exact jsTrim_idem _

theorem finishLines_cases (m : List Char) :
    finishLines m = [] ∨
      ∃ L2, jsSplitNl (finishLines m) = L2 ∧ jsJoinNl L2 = finishLines m ∧
        L2.length ≤ 5 ∧ ∀ a ∈ L2, ('\n') ∉ a ∧ hasNonWs a := by
  rcases hL : truncate5 (filterNonblank (jsSplitNl m)) with _ | ⟨x, rest⟩
  · left
    unfold finishLines
    rw [hL]
    rfl
  · right
    have hfacts : ∀ a ∈ truncate5 (filterNonblank (jsSplitNl m)), ('\n') ∉ a ∧ hasNonWs a := by
      intro a ha
      obtain ⟨ham, hpos⟩ := mem_filterNonblank (mem_truncate5 ha)
      exact ⟨splitNl_no_nl m a ham, (hasNonWs_iff_jsTrim_pos a).mp hpos⟩
    have hx : ('\n') ∉ x ∧ hasNonWs x :=
      hfacts x (by rw [hL]; exact List.mem_cons_self x rest)
    have hrest : ∀ a ∈ rest, ('\n') ∉ a ∧ hasNonWs a := fun a ha =>
      hfacts a (by rw [hL]; exact List.mem_cons_of_mem x ha)
    have hMnw : ∀ a ∈ trimLeft x :: rest, hasNonWs a := by
      intro a ha
      rcases List.mem_cons.mp ha with rfl | har
      · exact hasNonWs_trimLeft hx.2
      · exact (hrest a har).2
    have hCH : finishLines m = jsJoinNl (mapLastF trimRight (trimLeft x :: rest)) := by
      unfold finishLines
      rw [hL]
      show jsTrim (jsJoinNl (x :: rest)) = _
      unfold jsTrim
      rw [trimLeft_joinNl x rest hx.2]
      exact trimRight_joinNl (trimLeft x :: rest) (by simp) hMnw
    have hfacts2 : ∀ a ∈ mapLastF trimRight (trimLeft x :: rest), ('\n') ∉ a ∧ hasNonWs a := by
      intro a ha
      rcases mapLastF_mem ha with hin | ⟨b, hb, rfl⟩
      · rcases List.mem_cons.mp hin with rfl | har
        · exact ⟨fun hmem => hx.1 (mem_trimLeft hmem), hasNonWs_trimLeft hx.2⟩
        · exact hrest a har
      · rcases List.mem_cons.mp hb with rfl | hbr
        · exact ⟨fun hmem => hx.1 (mem_trimLeft (mem_trimRight hmem)),
            hasNonWs_trimRight (hasNonWs_trimLeft hx.2)⟩
        · exact ⟨fun hmem => (hrest b hbr).1 (mem_trimRight hmem),
            hasNonWs_trimRight (hrest b hbr).2⟩
    refine ⟨mapLastF trimRight (trimLeft x :: rest), ?_, ?_, ?_, hfacts2⟩
    · rw [hCH]
      exact split_join (fun a ha => (hfacts2 a ha).1)
        (mapLastF_ne_nil trimRight (by simp))
    · rw [hCH]
    · rw [mapLastF_length]
      have h5 := truncate5_length (filterNonblank (jsSplitNl m))
      rw [hL] at h5
      simpa using h5

theorem finishLines_fixed_of (y : List Char) (hTrim : jsTrim y = y)
    (hNb : filterNonblank (jsSplitNl y) = jsSplitNl y)
    (hLen : (jsSplitNl y).length ≤ 5) : finishLines y = y := by
  unfold finishLines
  rw [hNb]
  unfold truncate5
  rw [if_neg (by omega)]
  rw [join_split_id, hTrim]

theorem finishLines_idem (m : List Char) : finishLines (finishLines m) = finishLines m := by
  rcases finishLines_cases m with he | ⟨L2, hsp, hjn, hlen, hfacts⟩
  · rw [he]
    decide
  · apply finishLines_fixed_of
    · exact jsTrim_finishLines m
    · unfold filterNonblank
      rw [hsp]
      apply List.filter_eq_self.mpr
      intro a ha
      exact decide_eq_true ((hasNonWs_iff_jsTrim_pos a).mpr (hfacts a ha).2)
    · rw [hsp]
      exact hlen

theorem splitNl_finishLines_le5 (m : List Char) :
    (jsSplitNl (finishLines m)).length ≤ 5 := by
  rcases finishLines_cases m with he | ⟨L2, hsp, hjn, hlen, hfacts⟩
  · rw [he]
    decide
  · rw [hsp]
    exact hlen

theorem star_not_in_cleanPoemL (l : List Char) : '*' ∉ cleanPoemL l := by
  intro h
  have h2 := mem_finishLines_cases
    (show '*' ∈ finishLines
        (titlePoemStrip (heresStrip (removeStar (removeStarStar (jsTrim l))))) from h)
  rcases h2 with hnl | hmem
  · exact absurd hnl (by decide)
  · exact star_not_mem_removeStar _ (mem_heresStrip (mem_titlePoemStrip hmem))

theorem cleanPoemL_idem_of (l : List Char)
    (h1 : heresStrip (cleanPoemL l) = cleanPoemL l)
    (h2 : titlePoemStrip (cleanPoemL l) = cleanPoemL l) :
    cleanPoemL (cleanPoemL l) = cleanPoemL l := by
  have hstar : '*' ∉ cleanPoemL l := star_not_in_cleanPoemL l
  have htrim : jsTrim (cleanPoemL l) = cleanPoemL l := by
    unfold cleanPoemL
    exact jsTrim_finishLines _
  have hrss : removeStarStar (cleanPoemL l) = cleanPoemL l := removeStarStar_eq_self hstar
  have hrs : removeStar (cleanPoemL l) = cleanPoemL l := removeStar_eq_self hstar
  have hfin : finishLines (cleanPoemL l) = cleanPoemL l := by
    unfold cleanPoemL
    exact finishLines_idem _
  calc cleanPoemL (cleanPoemL l)
      = finishLines (titlePoemStrip (heresStrip
          (removeStar (removeStarStar (jsTrim (cleanPoemL l)))))) := rfl
    _ = cleanPoemL l := by rw [htrim, hrss, hrs, h1, h2, hfin]

theorem mk_data (l : List Char) : (String.mk l).data = l := rfl

theorem cleanPoem_data (s : String) : (cleanPoem s).data = cleanPoemL s.data := by
  unfold cleanPoem
  rfl

theorem template_shape (pre u : String) :
    (∃ p q, ((pre ++ u ++ "\nWrite the poem now:")).data = p ++ u.data ++ q) ∧
    (∃ p, ((pre ++ u ++ "\nWrite the poem now:")).data = p ++ ("Write the poem now:").data) := by
  constructor
  · exact ⟨pre.data, ("\nWrite the poem now:").data,
      by rw [String.data_append, String.data_append]⟩
  · refine ⟨pre.data ++ u.data ++ ['\n'], ?_⟩
    rw [String.data_append, String.data_append]
    have hnl : ("\nWrite the poem now:").data = '\n' :: ("Write the poem now:").data := by
      decide
    rw [hnl]
    simp [List.append_assoc]

theorem catchBlock_err (e : JsError) :
    ∃ msg ra, (catchBlock e).payload = Payload.errMsg msg ra := by
  cases e with
  | axiosHttp s =>
    simp only [catchBlock]
    split_ifs <;> exact ⟨_, _, rfl⟩
  | axiosTimeout => exact ⟨_, _, rfl⟩
  | axiosNetwork => exact ⟨_, _, rfl⟩
  | thrown m => exact ⟨_, _, rfl⟩

/-- Claim C1: the spec says every request that matches no API route and
no static asset is answered 200 with the index.html document.  The code
instead registers the catch-all 404 handler (app.use) BEFORE the
app.get star route, and app.use with no path matches every request, so
the star route is dead code and such requests get the 404 JSON reply.
The theorem shows the star route is unreachable for every request and
evaluates the dispatcher at a concrete non-API, non-asset GET. -/
theorem claim_C1_spa_fallback :
    (∀ r : HttpRequest, dispatch r ≠ some Layer.spaFallback) ∧
    dispatch ⟨"GET", "/pages/about", false⟩ = some Layer.notFoundAll ∧
    route ⟨"GET", "/pages/about", false⟩
      = RouteReply.notFoundJson 404 "Endpoint not found. Use POST /api/generate-poem." := by
  refine ⟨?_, by decide, by decide⟩
  intro r
  unfold dispatch middlewareStack
  simp only [List.find?, layerAccepts]
  cases h1 : (r.method == "GET" || r.method == "HEAD") && r.hasStaticAsset <;>
    cases h2 : r.method == "GET" && r.path == "/api/health" <;>
      cases h3 : r.method == "POST" && r.path == "/api/generate-poem" <;>
        simp [h1, h2, h3]

/-- Claim C2 (amended): cleanPoem is idempotent at every string x whose
output is already a fixed point of the two start-anchored removal steps
(the Here-preamble regex and the leading Title/Poem line regex); it is
not idempotent in general, because an output can itself start with a
removable preamble that a second application then strips (see the
counterexample theorem). -/
theorem claim_C2_idem (x : String)
    (h1 : heresStrip (cleanPoem x).data = (cleanPoem x).data)
    (h2 : titlePoemStrip (cleanPoem x).data = (cleanPoem x).data) :
    cleanPoem (cleanPoem x) = cleanPoem x := by
  rw [cleanPoem_data] at h1 h2
  unfold cleanPoem
  rw [mk_data (cleanPoemL x.data), cleanPoemL_idem_of x.data h1 h2]

theorem claim_C2_witness :
    heresStrip (cleanPoem "hello\nworld").data = (cleanPoem "hello\nworld").data ∧
    titlePoemStrip (cleanPoem "hello\nworld").data = (cleanPoem "hello\nworld").data ∧
    cleanPoem (cleanPoem "hello\nworld") = cleanPoem "hello\nworld" :=
  ⟨by decide, by decide, claim_C2_idem "hello\nworld" (by decide) (by decide)⟩

/-- Claim C2, counterexample to the claim as stated: for the input
whose first line is a Title line and whose second line is a Poem line,
the first application removes only the Title line (the regex anchor
only matches at the start of the whole string), so the output starts
with the Poem line and a second application removes it too. -/
theorem claim_C2_counterexample :
    cleanPoem (cleanPoem "Title: a\nPoem: b\nhi") ≠ cleanPoem "Title: a\nPoem: b\nhi" := by
  decide

/-- Claim C3: the spec says every line beginning with Title or Poem and
a colon is removed, anchored at each line start.  The regex in the code
has the global and case-insensitive flags but not the multiline flag,
so its caret anchor matches only at the start of the whole string and
only the first line can be removed: on the failing input the interior
Poem line survives in the output (it even starts the output). -/
theorem claim_C3_anchor :
    cleanPoem "Title: a\nPoem: b\nhi" = "Poem: b\nhi" ∧
    ciStartsWith poemColon (cleanPoem "Title: a\nPoem: b\nhi").data = true := by
  exact ⟨by decide, by decide⟩

/-- Claim C4, counterexample to the claim as stated: toString is not a
recognized key, yet the bracket lookup finds the inherited truthy
Object.prototype.toString, so the or-else default is bypassed: the
result differs from the default-theme output and is not a string at
all. -/
theorem claim_C4_counterexample :
    buildPrompt "joy" (some "toString") = JsLookup.inherited "toString" ∧
    (buildPrompt "joy" (some "toString")).isStr = false ∧
    buildPrompt "joy" (some "toString") ≠ buildPrompt "joy" (some "moodverse") := by
  exact ⟨by decide, by decide, by decide⟩

/-- Claim C4 (amended): buildPrompt is total by construction (a Lean
function from strings to JS lookup values), and every theme value that
is neither one of the three recognized keys nor the name of an
Object.prototype member falls through the lookup chain to the default
moodverse template, so its output equals the output for the moodverse
theme with the same user input.  For an inherited member name the
lookup returns the truthy inherited non-string member instead (see the
counterexample theorem). -/
theorem claim_C4_default (u θ : String)
    (h1 : θ ≠ "lovelines") (h2 : θ ≠ "moodverse") (h3 : θ ≠ "soulscript")
    (h4 : θ ∉ objectProtoKeys) :
    buildPrompt u (some θ) = buildPrompt u (some "moodverse") := by
  have hrhs : buildPrompt u (some "moodverse") = .str (moodverseTemplate u) := rfl
  rw [hrhs]
  simp only [buildPrompt]
  rw [if_neg h1, if_neg h2, if_neg h3, if_neg h4]

theorem claim_C4_witness :
    ("nature" : String) ≠ "lovelines" ∧ ("nature" : String) ≠ "moodverse" ∧
    ("nature" : String) ≠ "soulscript" ∧ ("nature" : String) ∉ objectProtoKeys ∧
    buildPrompt "joy" (some "nature") = buildPrompt "joy" (some "moodverse") :=
  ⟨by decide, by decide, by decide, by decide,
    claim_C4_default "joy" "nature" (by decide) (by decide) (by decide) (by decide)⟩

/-- Claim C5, counterexample to the claim as stated: at the non-empty
userInput sunrise and the theme toString, the lookup yields the
inherited Object.prototype.toString, which is not a string, so the
returned value neither contains the user input nor ends with the
instruction tail. -/
theorem claim_C5_counterexample :
    ("sunrise" : String) ≠ "" ∧
    buildPrompt "sunrise" (some "toString") = JsLookup.inherited "toString" ∧
    (buildPrompt "sunrise" (some "toString")).isStr = false := by
  exact ⟨by decide, by decide, by decide⟩

/-- Claim C5 (amended): for every non-empty userInput and every theme
string that is not the name of an Object.prototype member, the built
prompt is a template string that contains userInput verbatim as a
substring and ends with the literal instruction to write the poem now
(every template is a fixed preamble, then the user input, then the
fixed tail).  For an inherited member name the lookup returns the
non-string inherited member instead (see the counterexample
theorem). -/
theorem claim_C5_embeds (u θ : String) ( _hu : u ≠ "") (hp : θ ∉ objectProtoKeys) :
    ∃ s, buildPrompt u (some θ) = JsLookup.str s ∧
      (∃ p q, s.data = p ++ u.data ++ q) ∧
      (∃ p, s.data = p ++ ("Write the poem now:").data) := by
  simp only [buildPrompt]
  by_cases h1 : θ = "lovelines"
  · rw [if_pos h1]
    exact ⟨lovelinesTemplate u, rfl, template_shape
      "You are a romantic poet. Write a beautiful, heartfelt love poem (exactly 5 lines) about: " u⟩
  · rw [if_neg h1]
    by_cases h2 : θ = "moodverse"
    · rw [if_pos h2]
      exact ⟨moodverseTemplate u, rfl, template_shape
        "You are an emotional poet. Write a deeply emotional poem (exactly 5 lines) that captures these feelings: " u⟩
    · rw [if_neg h2]
      by_cases h3 : θ = "soulscript"
      · rw [if_pos h3]
        exact ⟨soulscriptTemplate u, rfl, template_shape
          "You are an inspirational poet. Write an uplifting, reflective affirmation poem (exactly 5 lines) about: " u⟩
      · rw [if_neg h3, if_neg hp]
        exact ⟨moodverseTemplate u, rfl, template_shape
          "You are an emotional poet. Write a deeply emotional poem (exactly 5 lines) that captures these feelings: " u⟩

theorem claim_C5_witness :
    ("sunrise" : String) ≠ "" ∧ ("lovelines" : String) ∉ objectProtoKeys ∧
    (∃ s, buildPrompt "sunrise" (some "lovelines") = JsLookup.str s ∧
      (∃ p q, s.data = p ++ ("sunrise" : String).data ++ q) ∧
      (∃ p, s.data = p ++ ("Write the poem now:").data)) :=
  ⟨by decide, by decide, claim_C5_embeds "sunrise" "lovelines" (by decide) (by decide)⟩

/-- Claim C6: for every input string, cleanPoem output contains no
asterisk character, and splitting the output on newline yields at most
5 lines. -/
theorem claim_C6_shape (s : String) :
    '*' ∉ (cleanPoem s).data ∧ (jsSplitNl (cleanPoem s).data).length ≤ 5 := by
  rw [cleanPoem_data]
  constructor
  · exact star_not_in_cleanPoemL s.data
  · show (jsSplitNl (finishLines
      (titlePoemStrip (heresStrip (removeStar (removeStarStar (jsTrim s.data))))))).length ≤ 5
    exact splitNl_finishLines_le5 _

/-- Claim C7: when userInput is absent, empty, or whitespace-only after
trimming, the handler answers 400 with the validation error payload and
nothing else happens: no prompt is built and no remote call is made,
for every credential state (the validation guard runs before the
credential check) and every would-be remote outcome. -/
theorem claim_C7_validation (body : GenBody) (apiKey : Option String)
    (remote : RemoteOutcome) (h : invalidInput body.userInput = true) :
    generatePoem body apiKey remote
      = ⟨[⟨400, .errMsg "Please provide your feelings or thoughts to generate a poem." none⟩],
          none, false⟩ := by
  simp [generatePoem, h]

theorem claim_C7_witness :
    invalidInput (some "   ") = true ∧
    generatePoem ⟨some "   ", some "lovelines"⟩ none RemoteOutcome.timeout
      = ⟨[⟨400, .errMsg "Please provide your feelings or thoughts to generate a poem." none⟩],
          none, false⟩ :=
  ⟨by decide,
    claim_C7_validation ⟨some "   ", some "lovelines"⟩ none RemoteOutcome.timeout (by decide)⟩

/-- Claim C8: with valid input and a configured credential, the catch
block maps remote failures exactly as the spec table says: remote 400
to 400, 401 and 403 to 500, 429 to 429 with retryAfter 10, 503 to 503
with retryAfter 20, any other remote status to 500, a timeout to 504,
and a status-less non-timeout failure to 500. -/
theorem claim_C8_mapping (body : GenBody) (k : String) (s : Nat)
    (hvalid : invalidInput body.userInput = false)
    (hs : s ≠ 400 ∧ s ≠ 401 ∧ s ≠ 403 ∧ s ≠ 429 ∧ s ≠ 503) :
    (generatePoem body (some k) (.httpError 400)).responses
        = [⟨400, .errMsg "Invalid request to AI service." none⟩] ∧
    (generatePoem body (some k) (.httpError 401)).responses
        = [⟨500, .errMsg "Authentication failed." none⟩] ∧
    (generatePoem body (some k) (.httpError 403)).responses
        = [⟨500, .errMsg "Authentication failed." none⟩] ∧
    (generatePoem body (some k) (.httpError 429)).responses
        = [⟨429, .errMsg "Too many requests." (some 10)⟩] ∧
    (generatePoem body (some k) (.httpError 503)).responses
        = [⟨503, .errMsg "Service unavailable." (some 20)⟩] ∧
    (generatePoem body (some k) (.httpError s)).responses
        = [⟨500, .errMsg "Failed to generate poem." none⟩] ∧
    (generatePoem body (some k) RemoteOutcome.timeout).responses
        = [⟨504, .errMsg "Request timed out." none⟩] ∧
    (generatePoem body (some k) RemoteOutcome.networkError).responses
        = [⟨500, .errMsg "An unexpected error occurred." none⟩] := by
  obtain ⟨h1, h2, h3, h4, h5⟩ := hs
  refine ⟨?_, ?_, ?_, ?_, ?_, ?_, ?_, ?_⟩ <;>
    simp [generatePoem, hvalid, runRemote, catchBlock, h1, h2, h3, h4, h5]

theorem claim_C8_witness :
    invalidInput (some "joy") = false ∧
    ((418 : Nat) ≠ 400 ∧ (418 : Nat) ≠ 401 ∧ (418 : Nat) ≠ 403 ∧
      (418 : Nat) ≠ 429 ∧ (418 : Nat) ≠ 503) ∧
    (generatePoem ⟨some "joy", none⟩ (some "key") (.httpError 429)).responses
        = [⟨429, .errMsg "Too many requests." (some 10)⟩] ∧
    (generatePoem ⟨some "joy", none⟩ (some "key") (.httpError 418)).responses
        = [⟨500, .errMsg "Failed to generate poem." none⟩] ∧
    (generatePoem ⟨some "joy", none⟩ (some "key") RemoteOutcome.timeout).responses
        = [⟨504, .errMsg "Request timed out." none⟩] := by
  have h := claim_C8_mapping ⟨some "joy", none⟩ "key" 418 (by decide)
    ⟨by decide, by decide, by decide, by decide, by decide⟩
  exact ⟨by decide, ⟨by decide, by decide, by decide, by decide, by decide⟩,
    h.2.2.2.1, h.2.2.2.2.2.1, h.2.2.2.2.2.2.1⟩

/-- Claim C9: every run of the generate-poem handler sends exactly one
response, and its payload is either one success object or one error
object, across all of validation failure, missing credential, every
remote failure, the malformed-shape throw, and the success path. -/
theorem claim_C9_one_response (body : GenBody) (apiKey : Option String)
    (remote : RemoteOutcome) :
    (generatePoem body apiKey remote).responses.length = 1 ∧
    ∀ r ∈ (generatePoem body apiKey remote).responses,
      (∃ poem theme, r.payload = Payload.poemOk poem theme) ∨
      (∃ msg ra, r.payload = Payload.errMsg msg ra) := by
  unfold generatePoem
  by_cases h1 : invalidInput body.userInput
  · simp only [h1, if_true]
    refine ⟨rfl, ?_⟩
    intro r hr
    rcases List.mem_singleton.mp hr with rfl
    exact Or.inr ⟨_, _, rfl⟩
  · by_cases h2 : apiKey.isNone
    · simp only [h1, if_false, h2, if_true, Bool.false_eq_true]
      refine ⟨rfl, ?_⟩
      intro r hr
      rcases List.mem_singleton.mp hr with rfl
      exact Or.inr ⟨_, _, rfl⟩
    · simp only [h1, h2, if_false, Bool.false_eq_true]
      rcases hrr : runRemote remote with e | text
      · refine ⟨rfl, ?_⟩
        intro r hr
        rcases List.mem_singleton.mp hr with rfl
        exact Or.inr (catchBlock_err e)
      · refine ⟨rfl, ?_⟩
        intro r hr
        rcases List.mem_singleton.mp hr with rfl
        exact Or.inl ⟨_, _, rfl⟩

/-- Claim C10: on the success path the response echoes the theme value
of the request unchanged, whatever it is (a recognized key, an
unrecognized string, or absent) — the success object stores the raw
request theme, not the key that selected the template. -/
theorem claim_C10_theme_echo (body : GenBody) (k : String) (text : String)
    (h : invalidInput body.userInput = false) :
    (generatePoem body (some k) (.ok (some text))).responses
      = [⟨200, .poemOk (cleanPoem text) body.theme⟩] := by
  simp [generatePoem, h, runRemote]

theorem claim_C10_witness :
    invalidInput (some "joy") = false ∧
    (generatePoem ⟨some "joy", none⟩ (some "k") (.ok (some "A poem"))).responses
      = [⟨200, .poemOk (cleanPoem "A poem") none⟩] :=
  ⟨by decide, claim_C10_theme_echo ⟨some "joy", none⟩ "k" "A poem" (by decide)⟩

end MuseMind

